import Mathlib

/-!
Shallow embedding of the booking-conflict validation and alternative-slot
suggestion engine of the booking-system backend (`core/serializers.py`,
`BookingSerializer.validate`, together with the `Booking` model of
`core/models.py`).

Time instants are modelled as integers (minutes); the configured lead time
`timedelta(minutes=30)` becomes the integer `30`.  The persistent store is a
list of `Booking` records; Django querysets are modelled as filters over that
list, with the model's default ordering `ordering = ['start_time']` and the
explicit `order_by('end_time')` / `order_by('-end_time')` clauses rendered by
insertion sort on the corresponding field.
-/

namespace BookingSys

/-- Booking status, from `Booking.STATUS_CHOICES` in `core/models.py`. -/
inductive BStatus where
  | pending
  | confirmed
  | cancelled
  | rejected
deriving DecidableEq

/-- A persisted `Booking` row (`core/models.py`): primary key, user id,
resource id, `start_time`, `end_time`, `status`. -/
structure Booking where
  pk : Nat
  user : Nat
  resource : Nat
  start_time : Int
  end_time : Int
  status : BStatus
deriving DecidableEq

/-- `.exclude(status__in=['cancelled', 'rejected'])`: a booking survives that
exclusion iff its status is neither cancelled nor rejected. -/
def isActive (st : BStatus) : Bool :=
  !(st == BStatus.cancelled || st == BStatus.rejected)

/-- `.exclude(pk=self.instance.pk)` when the serializer has an instance,
no exclusion otherwise. -/
def passesExclude (inst : Option Nat) (b : Booking) : Bool :=
  match inst with
  | none => true
  | some pk => b.pk != pk

/-- The half-open interval filter `start_time__lt=e, end_time__gt=s`. -/
def overlapPred (s e : Int) (b : Booking) : Bool :=
  decide (b.start_time < e) && decide (b.end_time > s)

/-- `order_by('end_time')`. -/
def sortByEnd (l : List Booking) : List Booking :=
  l.insertionSort (fun a b => a.end_time ≤ b.end_time)

/-- The model's default ordering `ordering = ['start_time']`. -/
def sortByStart (l : List Booking) : List Booking :=
  l.insertionSort (fun a b => a.start_time ≤ b.start_time)

/-- The `overlapping_bookings` queryset of `BookingSerializer.validate`
(lines 93-104): bookings of the resource satisfying the half-open overlap
filter, minus the instance being updated, minus cancelled/rejected rows,
in the model's default `start_time` ordering. -/
def overlappingBookings (db : List Booking) (inst : Option Nat) (r : Nat)
    (s e : Int) : List Booking :=
  sortByStart (db.filter (fun b =>
    b.resource == r && overlapPred s e b && passesExclude inst b &&
      isActive b.status))

/-- The `all_future_bookings` queryset (lines 118-124): bookings of the
resource whose `end_time` is after now, minus cancelled/rejected rows and
the instance being updated, `order_by('end_time')`. -/
def futureActive (db : List Booking) (now : Int) (inst : Option Nat)
    (r : Nat) : List Booking :=
  sortByEnd (db.filter (fun b =>
    b.resource == r && decide (b.end_time > now) && passesExclude inst b &&
      isActive b.status))

/-- `overlapping_bookings.order_by('-end_time').first().end_time` on a
non-empty queryset: the greatest `end_time` of the head and tail. -/
def latestEndNE (b : Booking) (bs : List Booking) : Int :=
  bs.foldl (fun m x => max m x.end_time) b.end_time

/-- `all_future_bookings.filter(start_time__lt=candidate_end,
end_time__gt=candidate_start).first()` on the `end_time`-ordered queryset. -/
def findClash (future : List Booking) (cs ce : Int) : Option Booking :=
  future.find? (fun b => overlapPred cs ce b)

/-- The `for _ in range(20)` suggestion scan (lines 129-140), with the
remaining iteration count as fuel: a clash-free candidate is returned,
otherwise the candidate start advances to the clashing booking's end. -/
def suggestLoop (future : List Booking) (d : Int) : Nat → Int → Option (Int × Int)
  | 0, _ => none
  | Nat.succ fuel, cs =>
    match findClash future cs (cs + d) with
    | none => some (cs, cs + d)
    | some clash => suggestLoop future d fuel clash.end_time

/-- Number of loop iterations the suggestion scan actually executes. -/
def suggestRounds (future : List Booking) (d : Int) : Nat → Int → Nat
  | 0, _ => 0
  | Nat.succ fuel, cs =>
    match findClash future cs (cs + d) with
    | none => 1
    | some clash => 1 + suggestRounds future d fuel clash.end_time

/-- The candidate-start seed of the suggestion scan (line 127): the greatest
end time among the conflicting bookings, when a conflict exists. -/
def seedOf (db : List Booking) (inst : Option Nat) (r : Nat) (s e : Int) :
    Option Int :=
  match overlappingBookings db inst r s e with
  | [] => none
  | b :: bs => some (latestEndNE b bs)

/-- The four `ValidationError` outcomes of `BookingSerializer.validate`.
`conflict` carries the displayed conflicting intervals (up to 3) and the
optional suggested interval. -/
inductive Rejection where
  | leadTime (earliest : Int)
  | ordering
  | past
  | conflict (details : List (Int × Int)) (suggestion : Option (Int × Int))
deriving DecidableEq

deriving instance DecidableEq for Except

/-- The write payload as seen by `validate`: each of `resource`,
`start_time`, `end_time` may be absent (PATCH requests send only some
fields). -/
structure BookingData where
  resource : Option Nat
  start_time : Option Int
  end_time : Option Int
deriving DecidableEq

/-- `BookingSerializer.validate` (lines 64-152).  `inst` is
`self.instance.pk` when the serializer wraps an existing booking.  The
checks run only when `start_time`, `end_time` and `resource` are all in the
payload; otherwise the data is returned unchanged (`.ok`). -/
def validate (db : List Booking) (now : Int) (inst : Option Nat)
    (data : BookingData) : Except Rejection Unit :=
  match data.start_time, data.end_time, data.resource with
  | some s, some e, some r =>
    if inst = none ∧ s < now + 30 then
      Except.error (Rejection.leadTime (now + 30))
    else if s ≥ e then
      Except.error Rejection.ordering
    else if inst = none ∧ s < now then
      Except.error Rejection.past
    else
      match overlappingBookings db inst r s e with
      | [] => Except.ok ()
      | b :: bs =>
        let details := ((b :: bs).take 3).map (fun x => (x.start_time, x.end_time))
        let d := e - s
        let future := futureActive db now inst r
        let seed := latestEndNE b bs
        Except.error (Rejection.conflict details (suggestLoop future d 20 seed))
  | _, _, _ => Except.ok ()

/-- The Scenario B repository of the spec: resource 1 with active bookings
`[14:00, 15:00)` and `[16:00, 17:00)` (minutes since midnight). -/
def scenarioBdb : List Booking :=
  [⟨1, 1, 1, 840, 900, BStatus.confirmed⟩,
   ⟨2, 1, 1, 960, 1020, BStatus.confirmed⟩]

/-- The `i`-th booking of a gapless back-to-back chain of bookings of
length `d` starting at `t0`. -/
def chainBooking (pk0 r u : Nat) (t0 d : Int) (i : Nat) : Booking :=
  ⟨pk0 + i, u, r, t0 + (i : Int) * d, t0 + ((i : Int) + 1) * d,
    BStatus.confirmed⟩

/-- `chainFrom pk0 r u t0 d j m` is the chain segment of `m` bookings with
indices `j, j+1, …, j+m-1`. -/
def chainFrom (pk0 r u : Nat) (t0 d : Int) : Nat → Nat → List Booking
  | _, 0 => []
  | j, Nat.succ m =>
    chainBooking pk0 r u t0 d j :: chainFrom pk0 r u t0 d (j + 1) m

/-- A repository holding exactly an `n`-booking back-to-back chain. -/
def chainDb (pk0 r u : Nat) (t0 d : Int) (n : Nat) : List Booking :=
  chainFrom pk0 r u t0 d 0 n

end BookingSys

namespace BookingSys

/-! ## General lemmas about the queryset model -/

theorem mem_sortByStart {b : Booking} {l : List Booking} :
    b ∈ sortByStart l ↔ b ∈ l :=
  (List.perm_insertionSort _ l).mem_iff

theorem mem_sortByEnd {b : Booking} {l : List Booking} :
    b ∈ sortByEnd l ↔ b ∈ l :=
  (List.perm_insertionSort _ l).mem_iff

theorem sortByStart_eq_nil {l : List Booking} :
    sortByStart l = [] ↔ l = [] := by
  constructor
  · intro h
    have hp : (sortByStart l).Perm l := List.perm_insertionSort _ l
    rw [h] at hp
    exact hp.symm.eq_nil
  · intro h
    subst h
    rfl

theorem mem_overlappingBookings {db : List Booking} {inst : Option Nat}
    {r : Nat} {s e : Int} {b : Booking} :
    b ∈ overlappingBookings db inst r s e ↔
      b ∈ db ∧ b.resource = r ∧ b.start_time < e ∧ s < b.end_time ∧
        passesExclude inst b = true ∧ isActive b.status = true := by
  unfold overlappingBookings
  rw [mem_sortByStart, List.mem_filter]
  simp only [Bool.and_eq_true, overlapPred, decide_eq_true_eq, beq_iff_eq,
    gt_iff_lt]
  tauto

theorem mem_futureActive {db : List Booking} {now : Int} {inst : Option Nat}
    {r : Nat} {b : Booking} :
    b ∈ futureActive db now inst r ↔
      b ∈ db ∧ b.resource = r ∧ now < b.end_time ∧
        passesExclude inst b = true ∧ isActive b.status = true := by
  unfold futureActive
  rw [mem_sortByEnd, List.mem_filter]
  simp only [Bool.and_eq_true, decide_eq_true_eq, beq_iff_eq, gt_iff_lt]
  tauto

/-! ## C1: the conflict test -/

/-- C1: for every resource, request interval `[s, e)` with `s < e`, and
repository state, the conflict detector reports a conflict iff some booking
for that resource, with status neither cancelled nor rejected, surviving the
update exclusion, satisfies the half-open overlap predicate
`existing.start < e ∧ s < existing.end`; in particular a booking ending
exactly at `s` (or starting exactly at `e`) never conflicts. -/
theorem conflict_iff_exists_active_overlap (db : List Booking)
    (inst : Option Nat) (r : Nat) (s e : Int) (h : s < e) :
    overlappingBookings db inst r s e ≠ [] ↔
      ∃ b ∈ db, isActive b.status = true ∧ b.resource = r ∧
        b.start_time < e ∧ s < b.end_time ∧ passesExclude inst b = true := by
  rw [Ne, List.eq_nil_iff_forall_not_mem]
  push_neg
  constructor
  · rintro ⟨b, hb⟩
    rw [mem_overlappingBookings] at hb
    exact ⟨b, hb.1, hb.2.2.2.2.2, hb.2.1, hb.2.2.1, hb.2.2.2.1, hb.2.2.2.2.1⟩
  · rintro ⟨b, hmem, hact, hr, hs, he, hex⟩
    exact ⟨b, mem_overlappingBookings.mpr ⟨hmem, hr, hs, he, hex, hact⟩⟩

theorem conflict_iff_witness :
    (20 : Int) < 30 ∧
      (overlappingBookings [⟨1, 1, 1, 10, 20, BStatus.confirmed⟩] none 1 20 30 ≠ [] ↔
        ∃ b ∈ [(⟨1, 1, 1, 10, 20, BStatus.confirmed⟩ : Booking)],
          isActive b.status = true ∧ b.resource = 1 ∧
            b.start_time < 30 ∧ (20 : Int) < b.end_time ∧
            passesExclude none b = true) :=
  ⟨by decide,
    conflict_iff_exists_active_overlap [⟨1, 1, 1, 10, 20, BStatus.confirmed⟩]
      none 1 20 30 (by decide)⟩

/-! ## C2: lead-time check on new bookings -/

/-- C2: a new booking (no instance) is rejected with the lead-time error
carrying `now + 30` iff its requested start is strictly before `now + 30`;
a start of exactly `now + 30` never produces the lead-time error. -/
theorem new_booking_leadTime_iff (db : List Booking) (now : Int) (r : Nat)
    (s e : Int) :
    validate db now none ⟨some r, some s, some e⟩ =
        Except.error (Rejection.leadTime (now + 30)) ↔
      s < now + 30 := by
  constructor
  · intro h
    by_contra hl
    simp only [validate] at h
    rw [if_neg (by simp [hl])] at h
    split_ifs at h with h2 h3
    · simp at h
    · simp at h
    · cases hov : overlappingBookings db none r s e with
      | nil => rw [hov] at h; simp at h
      | cons b bs => rw [hov] at h; simp at h
  · intro h
    simp [validate, h]

/-! ## C9: partial payloads skip all checks -/

/-- C9: when `start_time`, `end_time` and `resource` are not all present in
the payload, `validate` performs none of its checks and accepts
unconditionally, whatever the repository state. -/
theorem partial_payload_accepted (db : List Booking) (now : Int)
    (inst : Option Nat) (data : BookingData)
    (h : ¬(data.start_time.isSome ∧ data.end_time.isSome ∧
        data.resource.isSome)) :
    validate db now inst data = Except.ok () := by
  obtain ⟨ro, so, eo⟩ := data
  cases so <;> cases eo <;> cases ro <;> simp_all [validate]

theorem partial_payload_witness :
    validate [⟨1, 1, 1, 10, 20, BStatus.confirmed⟩] 0 none
        ⟨none, some 10, some 20⟩ = Except.ok () :=
  partial_payload_accepted [⟨1, 1, 1, 10, 20, BStatus.confirmed⟩] 0 none
    ⟨none, some 10, some 20⟩ (by decide)

end BookingSys

namespace BookingSys

/-! ## C6: cancelled / rejected bookings are invisible to the engine -/

/-- C6: a booking whose status is cancelled or rejected never causes a
conflict rejection and never influences the suggestion scan: adding such a
booking to the repository (even one whose interval equals the request)
leaves the whole validation outcome unchanged. -/
theorem inactive_booking_invisible (db : List Booking) (b : Booking)
    (now : Int) (inst : Option Nat) (data : BookingData)
    (h : b.status = BStatus.cancelled ∨ b.status = BStatus.rejected) :
    validate (b :: db) now inst data = validate db now inst data := by
  have hact : isActive b.status = false := by
    rcases h with h | h <;> simp [isActive, h]
  have h1 : ∀ (i : Option Nat) (r : Nat) (s e : Int),
      overlappingBookings (b :: db) i r s e = overlappingBookings db i r s e := by
    intro i r s e
    unfold overlappingBookings
    simp [List.filter_cons, hact]
  have h2 : ∀ (n : Int) (i : Option Nat) (r : Nat),
      futureActive (b :: db) n i r = futureActive db n i r := by
    intro n i r
    unfold futureActive
    simp [List.filter_cons, hact]
  obtain ⟨ro, so, eo⟩ := data
  cases so <;> cases eo <;> cases ro <;> simp only [validate, h1, h2]

theorem inactive_booking_witness :
    validate [⟨1, 1, 1, 100, 200, BStatus.cancelled⟩] 0 none
        ⟨some 1, some 100, some 200⟩ =
      validate [] 0 none ⟨some 1, some 100, some 200⟩ :=
  inactive_booking_invisible [] ⟨1, 1, 1, 100, 200, BStatus.cancelled⟩ 0 none
    ⟨some 1, some 100, some 200⟩ (Or.inl rfl)

/-! ## C7: self-exclusion on update -/

/-- C7: re-validating an update of booking X against its own unchanged
resource and interval never reports a conflict caused by X itself: the
booking with the excluded primary key is removed from the overlap query, so
if every *other* active booking of the resource avoids the half-open
overlap, validation succeeds, no matter how X itself (same pk) overlaps. -/
theorem self_exclusion_ok (db : List Booking) (now : Int) (pk r : Nat)
    (s e : Int) (hse : s < e)
    (hother : ∀ b ∈ db, b.pk ≠ pk → isActive b.status = true →
      b.resource = r → ¬(b.start_time < e ∧ s < b.end_time)) :
    validate db now (some pk) ⟨some r, some s, some e⟩ = Except.ok () := by
  have hov : overlappingBookings db (some pk) r s e = [] := by
    rw [List.eq_nil_iff_forall_not_mem]
    intro b hb
    rw [mem_overlappingBookings] at hb
    obtain ⟨hmem, hr, hs1, he1, hex, hact⟩ := hb
    have hpk : b.pk ≠ pk := by
      intro hc
      simp [passesExclude, hc] at hex
    exact hother b hmem hpk hact hr ⟨hs1, he1⟩
  simp only [validate]
  rw [if_neg (by simp : ¬(some pk = none ∧ s < now + 30)),
    if_neg (not_le.mpr hse),
    if_neg (by simp : ¬(some pk = none ∧ s < now)), hov]

theorem self_exclusion_witness :
    validate [⟨5, 1, 1, 10, 20, BStatus.confirmed⟩] 0 (some 5)
        ⟨some 1, some 10, some 20⟩ = Except.ok () :=
  self_exclusion_ok [⟨5, 1, 1, 10, 20, BStatus.confirmed⟩] 0 5 1 10 20
    (by decide) (by decide)

/-! ## C8: which checks apply to updates -/

/-- C8: on an update (instance present) the lead-time and past-time checks
never fire — no lead-time or past rejection is possible, whatever the start
— while the ordering check (`start < end`) and the conflict check are still
applied. -/
theorem update_checks (db : List Booking) (now : Int) (pk r : Nat)
    (s e : Int) :
    (∀ t, validate db now (some pk) ⟨some r, some s, some e⟩ ≠
        Except.error (Rejection.leadTime t)) ∧
    validate db now (some pk) ⟨some r, some s, some e⟩ ≠
        Except.error Rejection.past ∧
    (e ≤ s → validate db now (some pk) ⟨some r, some s, some e⟩ =
        Except.error Rejection.ordering) ∧
    (s < e →
      ((∃ L sug, validate db now (some pk) ⟨some r, some s, some e⟩ =
          Except.error (Rejection.conflict L sug)) ↔
        overlappingBookings db (some pk) r s e ≠ [])) := by
  have key : validate db now (some pk) ⟨some r, some s, some e⟩ =
      if s ≥ e then Except.error Rejection.ordering
      else
        match overlappingBookings db (some pk) r s e with
        | [] => Except.ok ()
        | b :: bs =>
          Except.error (Rejection.conflict
            (((b :: bs).take 3).map (fun x => (x.start_time, x.end_time)))
            (suggestLoop (futureActive db now (some pk) r) (e - s) 20
              (latestEndNE b bs))) := by
    simp only [validate]
    rw [if_neg (by simp : ¬(some pk = none ∧ s < now + 30)),
      if_neg (by simp : ¬(some pk = none ∧ s < now))]
  refine ⟨?_, ?_, ?_, ?_⟩
  · intro t hcontra
    rw [key] at hcontra
    split_ifs at hcontra with hc
    · simp at hcontra
    · cases hov : overlappingBookings db (some pk) r s e with
      | nil => rw [hov] at hcontra; simp at hcontra
      | cons b bs => rw [hov] at hcontra; simp at hcontra
  · intro hcontra
    rw [key] at hcontra
    split_ifs at hcontra with hc
    · simp at hcontra
    · cases hov : overlappingBookings db (some pk) r s e with
      | nil => rw [hov] at hcontra; simp at hcontra
      | cons b bs => rw [hov] at hcontra; simp at hcontra
  · intro hle
    rw [key, if_pos hle]
  · intro hse
    rw [key, if_neg (not_le.mpr hse)]
    cases hov : overlappingBookings db (some pk) r s e with
    | nil => simp
    | cons b bs =>
      constructor
      · intro _
        simp
      · intro _
        exact ⟨_, _, rfl⟩

theorem update_checks_witness :
    validate [] 0 (some 1) ⟨some 1, some 5, some 3⟩ =
        Except.error Rejection.ordering ∧
      ((∃ L sug, validate [⟨2, 1, 1, 0, 10, BStatus.confirmed⟩] 0 (some 1)
            ⟨some 1, some 3, some 5⟩ = Except.error (Rejection.conflict L sug)) ↔
        overlappingBookings [⟨2, 1, 1, 0, 10, BStatus.confirmed⟩] (some 1) 1
          3 5 ≠ []) :=
  ⟨(update_checks [] 0 1 1 5 3).2.2.1 (by decide),
    (update_checks [⟨2, 1, 1, 0, 10, BStatus.confirmed⟩] 0 1 1 3 5).2.2.2
      (by decide)⟩

end BookingSys

namespace BookingSys

/-! ## Properties of the suggestion scan -/

theorem suggestLoop_some (future : List Booking) (d : Int) :
    ∀ (fuel : Nat) (cs res1 res2 : Int),
      suggestLoop future d fuel cs = some (res1, res2) →
      res2 = res1 + d ∧ cs ≤ res1 ∧
        ∀ b ∈ future, ¬(b.start_time < res2 ∧ res1 < b.end_time) := by
  intro fuel
  induction fuel with
  | zero =>
    intro cs r1 r2 h
    simp [suggestLoop] at h
  | succ n ih =>
    intro cs r1 r2 h
    simp only [suggestLoop] at h
    cases hc : findClash future cs (cs + d) with
    | none =>
      rw [hc] at h
      simp only [Option.some.injEq, Prod.mk.injEq] at h
      obtain ⟨h1, h2⟩ := h
      subst h1
      subst h2
      refine ⟨rfl, le_refl _, ?_⟩
      intro b hb hcontra
      unfold findClash at hc
      have hnone := List.find?_eq_none.mp hc b hb
      apply hnone
      simp only [overlapPred, Bool.and_eq_true, decide_eq_true_eq, gt_iff_lt]
      exact ⟨hcontra.1, hcontra.2⟩
    | some clash =>
      rw [hc] at h
      obtain ⟨h1, h2, h3⟩ := ih clash.end_time r1 r2 h
      refine ⟨h1, ?_, h3⟩
      unfold findClash at hc
      have hcl := List.find?_some hc
      simp only [overlapPred, Bool.and_eq_true, decide_eq_true_eq,
        gt_iff_lt] at hcl
      exact le_trans (le_of_lt hcl.2) h2

theorem lt_latestEndNE {s : Int} {b : Booking} {bs : List Booking}
    (h : s < b.end_time) : s < latestEndNE b bs := by
  unfold latestEndNE
  suffices H : ∀ (l : List Booking) (init : Int), s < init →
      s < l.foldl (fun m x => max m x.end_time) init from H bs _ h
  intro l
  induction l with
  | nil =>
    intro init h0
    simpa using h0
  | cons x xs ih =>
    intro init h0
    exact ih _ (lt_max_of_lt_left h0)

/-- Inversion of the conflict outcome of `validate`: a conflict rejection
means the ordering check passed, for a new booking the lead-time check
passed, the overlap queryset is non-empty, and the reported suggestion is
the 20-round scan seeded at the conflicts' greatest end time. -/
theorem validate_conflict_inv (db : List Booking) (now : Int)
    (inst : Option Nat) (r : Nat) (s e : Int) (L : List (Int × Int))
    (sug : Option (Int × Int))
    (h : validate db now inst ⟨some r, some s, some e⟩ =
        Except.error (Rejection.conflict L sug)) :
    s < e ∧ (inst = none → now + 30 ≤ s) ∧
      ∃ b bs, overlappingBookings db inst r s e = b :: bs ∧
        sug = suggestLoop (futureActive db now inst r) (e - s) 20
          (latestEndNE b bs) := by
  simp only [validate] at h
  split_ifs at h with h1 h2 h3
  · simp at h
  · simp at h
  · simp at h
  · cases hov : overlappingBookings db inst r s e with
    | nil =>
      rw [hov] at h
      simp at h
    | cons b bs =>
      rw [hov] at h
      simp only [Except.error.injEq, Rejection.conflict.injEq] at h
      refine ⟨not_le.mp h2, ?_, b, bs, rfl, h.2.symm⟩
      intro hnone
      by_contra hq
      exact h1 ⟨hnone, not_le.mp hq⟩

/-! ## C3: soundness of a returned suggestion -/

/-- C3: whenever the conflict rejection carries a suggested interval
`[cs, ce)`, that interval has exactly the duration of the rejected request
and, under the half-open predicate, overlaps no booking of the resource
that is active (not cancelled, not rejected), ends after now, and is not
the booking being updated. -/
theorem suggestion_sound (db : List Booking) (now : Int) (inst : Option Nat)
    (r : Nat) (s e cs ce : Int) (L : List (Int × Int))
    (h : validate db now inst ⟨some r, some s, some e⟩ =
        Except.error (Rejection.conflict L (some (cs, ce)))) :
    ce = cs + (e - s) ∧
      ∀ b ∈ db, isActive b.status = true → b.resource = r →
        now < b.end_time → passesExclude inst b = true →
        ¬(b.start_time < ce ∧ cs < b.end_time) := by
  obtain ⟨-, -, b0, bs0, hov, hsug⟩ :=
    validate_conflict_inv db now inst r s e L _ h
  obtain ⟨h1, _, h3⟩ :=
    suggestLoop_some (futureActive db now inst r) (e - s) 20
      (latestEndNE b0 bs0) cs ce hsug.symm
  refine ⟨h1, ?_⟩
  intro b hb ha hr hn he
  exact h3 b (mem_futureActive.mpr ⟨hb, hr, hn, he, ha⟩)

theorem suggestion_sound_witness :
    (300 : Int) = 200 + (250 - 150) ∧
      ∀ b ∈ [(⟨1, 1, 1, 100, 200, BStatus.confirmed⟩ : Booking)],
        isActive b.status = true → b.resource = 1 →
        (0 : Int) < b.end_time → passesExclude none b = true →
        ¬(b.start_time < 300 ∧ (200 : Int) < b.end_time) :=
  suggestion_sound [⟨1, 1, 1, 100, 200, BStatus.confirmed⟩] 0 none 1 150 250
    200 300 [(100, 200)] (by decide)

/-! ## C10: lead time and the suggested interval -/

theorem new_suggestion_bound_aux (db : List Booking) (now : Int)
    (r : Nat) (s e cs ce : Int) (L : List (Int × Int))
    (h : validate db now none ⟨some r, some s, some e⟩ =
        Except.error (Rejection.conflict L (some (cs, ce)))) :
    now + 30 < cs := by
  obtain ⟨hse, hlead, b0, bs0, hov, hsug⟩ :=
    validate_conflict_inv db now none r s e L _ h
  have hs : now + 30 ≤ s := hlead rfl
  have hb0 : b0 ∈ overlappingBookings db none r s e := by
    rw [hov]
    exact List.mem_cons_self _ _
  have hend : s < b0.end_time := (mem_overlappingBookings.mp hb0).2.2.2.1
  have hseed : s < latestEndNE b0 bs0 := lt_latestEndNE hend
  obtain ⟨-, h2, -⟩ :=
    suggestLoop_some (futureActive db now none r) (e - s) 20
      (latestEndNE b0 bs0) cs ce hsug.symm
  omega

/-- C10 counterexample: there is no repository state and new-booking request
on which the suggested interval starts strictly before `now + 30`. -/
theorem suggestion_leadTime_claim_false :
    ¬ ∃ (db : List Booking) (now : Int) (r : Nat) (s e : Int)
        (L : List (Int × Int)) (cs ce : Int),
        validate db now none ⟨some r, some s, some e⟩ =
            Except.error (Rejection.conflict L (some (cs, ce))) ∧
          cs < now + 30 := by
  rintro ⟨db, now, r, s, e, L, cs, ce, h, hlt⟩
  have := new_suggestion_bound_aux db now r s e cs ce L h
  omega

/-- C10 (amended): the suggested interval is never re-checked against the
lead-time or past-time rules, but for a new-booking request no returned
suggestion can violate them: its start is strictly later than `now + 30`,
because the scan is seeded at the end of a booking that overlaps the
admitted request, whose start already passed the lead-time check. -/
theorem new_suggestion_respects_leadTime (db : List Booking) (now : Int)
    (r : Nat) (s e cs ce : Int) (L : List (Int × Int))
    (h : validate db now none ⟨some r, some s, some e⟩ =
        Except.error (Rejection.conflict L (some (cs, ce)))) :
    now + 30 < cs :=
  new_suggestion_bound_aux db now r s e cs ce L h

theorem new_suggestion_leadTime_witness :
    validate [⟨1, 1, 1, 100, 200, BStatus.confirmed⟩] 0 none
        ⟨some 1, some 150, some 250⟩ =
      Except.error (Rejection.conflict [(100, 200)] (some (200, 300))) ∧
    (0 : Int) + 30 < 200 :=
  ⟨by decide,
    new_suggestion_respects_leadTime [⟨1, 1, 1, 100, 200, BStatus.confirmed⟩]
      0 1 150 250 200 300 [(100, 200)] (by decide)⟩

end BookingSys

namespace BookingSys

/-! ## C4: Scenario B -/

/-- C4 counterexample: on the Scenario B request `[14:30, 16:30)` the scan
seed — the latest-ending conflicting booking's end — is 17:00 (1020), not
15:00 (900) as the claim states, because the two-hour request overlaps the
`[16:00, 17:00)` booking as well. -/
theorem scenarioB_seed_claim_false :
    seedOf scenarioBdb none 1 870 990 = some 1020 ∧
      seedOf scenarioBdb none 1 870 990 ≠ some 900 := by decide

/-- C4 (amended): in the Scenario B state the request `[14:30, 16:30)` is
rejected for conflict against both `[14:00, 15:00)` and `[16:00, 17:00)`
(the two-hour request overlaps both); the Slot Suggester seeds at the
latest-ending conflicting booking's end, 17:00, and immediately returns the
suggestion `[17:00, 19:00)` without any advancing round. -/
theorem scenarioB_amended :
    validate scenarioBdb 840 none ⟨some 1, some 870, some 990⟩ =
        Except.error (Rejection.conflict [(840, 900), (960, 1020)]
          (some (1020, 1140))) ∧
      seedOf scenarioBdb none 1 870 990 = some 1020 := by decide

/-! ## The back-to-back chain used for C5 -/

section Chain

variable (pk0 r u : Nat) (t0 d : Int)

theorem mem_chainFrom {x : Booking} :
    ∀ {m j : Nat}, x ∈ chainFrom pk0 r u t0 d j m →
      ∃ i : Nat, j ≤ i ∧ i < j + m ∧ x = chainBooking pk0 r u t0 d i := by
  intro m
  induction m with
  | zero =>
    intro j h
    simp [chainFrom] at h
  | succ n ih =>
    intro j h
    simp only [chainFrom] at h
    rcases List.mem_cons.mp h with h | h
    · exact ⟨j, le_refl j, by omega, h⟩
    · obtain ⟨i, h1, h2, h3⟩ := ih h
      exact ⟨i, by omega, by omega, h3⟩

theorem chain_mul_le {i j : Nat} (hd : 0 < d) (h : j ≤ i) :
    (j : Int) * d ≤ (i : Int) * d := by
  have hji : (j : Int) ≤ (i : Int) := by exact_mod_cast h
  exact mul_le_mul_of_nonneg_right hji (le_of_lt hd)

theorem overlappingBookings_chainDb (hd : 0 < d) (m : Nat) :
    overlappingBookings (chainDb pk0 r u t0 d (m + 1)) none r t0 (t0 + d) =
      [chainBooking pk0 r u t0 d 0] := by
  have htail : ∀ x ∈ chainFrom pk0 r u t0 d 1 m,
      ¬((x.resource == r && overlapPred t0 (t0 + d) x &&
          passesExclude none x && isActive x.status) = true) := by
    intro x hx
    obtain ⟨i, hi1, _, hx⟩ := mem_chainFrom pk0 r u t0 d hx
    subst hx
    simp only [chainBooking, overlapPred, passesExclude, isActive,
      Bool.and_eq_true, decide_eq_true_eq, beq_iff_eq, gt_iff_lt]
    rintro ⟨⟨⟨-, hlt, -⟩, -⟩, -⟩
    have h1 : (1 : Int) * d ≤ (i : Int) * d := chain_mul_le _ hd hi1
    have : (1 : Int) * d = d := one_mul d
    omega
  have hhead : ((chainBooking pk0 r u t0 d 0).resource == r &&
      overlapPred t0 (t0 + d) (chainBooking pk0 r u t0 d 0) &&
      passesExclude none (chainBooking pk0 r u t0 d 0) &&
      isActive (chainBooking pk0 r u t0 d 0).status) = true := by
    simp [chainBooking, overlapPred, passesExclude, isActive]
    omega
  unfold overlappingBookings chainDb
  rw [show chainFrom pk0 r u t0 d 0 (m + 1) =
      chainBooking pk0 r u t0 d 0 :: chainFrom pk0 r u t0 d 1 m from rfl]
  rw [List.filter_cons, if_pos hhead, List.filter_eq_nil_iff.mpr htail]
  rfl

end Chain

end BookingSys

namespace BookingSys

section Chain

variable (pk0 r u : Nat) (t0 d : Int)

theorem futureActive_chainDb (hd : 0 < d) (now : Int) (hnow : now < t0 + d)
    (n : Nat) :
    futureActive (chainDb pk0 r u t0 d n) now none r =
      chainFrom pk0 r u t0 d 0 n := by
  have hall : ∀ x ∈ chainFrom pk0 r u t0 d 0 n,
      (x.resource == r && decide (x.end_time > now) &&
        passesExclude none x && isActive x.status) = true := by
    intro x hx
    obtain ⟨i, -, -, hx⟩ := mem_chainFrom pk0 r u t0 d hx
    subst hx
    simp [chainBooking, passesExclude, isActive]
    have h1 : (1 : Int) * d ≤ ((i : Int) + 1) * d := by
      have : (1 : Int) ≤ (i : Int) + 1 := by
        have : (0 : Int) ≤ (i : Int) := Int.natCast_nonneg i
        omega
      exact mul_le_mul_of_nonneg_right this (le_of_lt hd)
    have h2 : (1 : Int) * d = d := one_mul d
    omega
  have hsorted : List.Sorted (fun a b : Booking => a.end_time ≤ b.end_time)
      (chainFrom pk0 r u t0 d 0 n) := by
    suffices H : ∀ (m j : Nat),
        List.Sorted (fun a b : Booking => a.end_time ≤ b.end_time)
          (chainFrom pk0 r u t0 d j m) from H n 0
    intro m
    induction m with
    | zero =>
      intro j
      simp [chainFrom]
    | succ k ih =>
      intro j
      rw [show chainFrom pk0 r u t0 d j (k + 1) =
          chainBooking pk0 r u t0 d j :: chainFrom pk0 r u t0 d (j + 1) k
          from rfl]
      rw [List.sorted_cons]
      refine ⟨?_, ih (j + 1)⟩
      intro x hx
      obtain ⟨i, hi1, -, hx⟩ := mem_chainFrom pk0 r u t0 d hx
      subst hx
      simp only [chainBooking]
      have h1 : ((j : Int) + 1) * d ≤ ((i : Int) + 1) * d := by
        have : ((j : Int) + 1) ≤ ((i : Int) + 1) := by
          have : (j : Int) + 1 ≤ (i : Int) := by exact_mod_cast hi1
          omega
        exact mul_le_mul_of_nonneg_right this (le_of_lt hd)
      omega
  unfold futureActive chainDb
  rw [List.filter_eq_self.mpr hall]
  exact List.Sorted.insertionSort_eq hsorted

theorem findClash_chainFrom (hd : 0 < d) :
    ∀ (m j k : Nat), j ≤ k → k < j + m →
      findClash (chainFrom pk0 r u t0 d j m) (t0 + (k : Int) * d)
          (t0 + (k : Int) * d + d) =
        some (chainBooking pk0 r u t0 d k) := by
  intro m
  induction m with
  | zero =>
    intro j k h1 h2
    omega
  | succ n ih =>
    intro j k h1 h2
    rw [show chainFrom pk0 r u t0 d j (n + 1) =
        chainBooking pk0 r u t0 d j :: chainFrom pk0 r u t0 d (j + 1) n
        from rfl]
    unfold findClash
    rcases eq_or_lt_of_le h1 with heq | hlt
    · subst heq
      have hre : ((j : Int) + 1) * d = (j : Int) * d + d := by ring
      have hpred : overlapPred (t0 + (j : Int) * d) (t0 + (j : Int) * d + d)
          (chainBooking pk0 r u t0 d j) = true := by
        simp only [chainBooking, overlapPred, Bool.and_eq_true,
          decide_eq_true_eq, gt_iff_lt, hre]
        omega
      rw [List.find?_cons_of_pos _ hpred]
    · rw [List.find?_cons_of_neg]
      · exact ih (j + 1) k (by omega) (by omega)
      · simp [chainBooking, overlapPred]
        intro hstart
        have hj1 : ((j : Int) + 1) * d ≤ (k : Int) * d := by
          have : ((j : Int) + 1) ≤ (k : Int) := by exact_mod_cast hlt
          exact mul_le_mul_of_nonneg_right this (le_of_lt hd)
        omega

theorem suggestLoop_chain_none (hd : 0 < d) :
    ∀ (fuel k n : Nat), k + fuel ≤ n →
      suggestLoop (chainFrom pk0 r u t0 d 0 n) d fuel
        (t0 + (k : Int) * d) = none := by
  intro fuel
  induction fuel with
  | zero =>
    intro k n h
    rfl
  | succ f ih =>
    intro k n h
    simp only [suggestLoop]
    rw [findClash_chainFrom pk0 r u t0 d hd n 0 k (by omega) (by omega)]
    have hend : (chainBooking pk0 r u t0 d k).end_time =
        t0 + ((k + 1 : Nat) : Int) * d := by
      simp [chainBooking]
    show suggestLoop (chainFrom pk0 r u t0 d 0 n) d f
        (chainBooking pk0 r u t0 d k).end_time = none
    rw [hend]
    exact ih (k + 1) n (by omega)

end Chain

end BookingSys

namespace BookingSys

theorem suggestRounds_le (future : List Booking) (d : Int) :
    ∀ (fuel : Nat) (cs : Int), suggestRounds future d fuel cs ≤ fuel := by
  intro fuel
  induction fuel with
  | zero =>
    intro cs
    simp [suggestRounds]
  | succ n ih =>
    intro cs
    simp only [suggestRounds]
    cases hc : findClash future cs (cs + d) with
    | none =>
      show 1 ≤ n + 1
      omega
    | some clash =>
      show 1 + suggestRounds future d n clash.end_time ≤ n + 1
      have := ih clash.end_time
      omega

/-- Evaluation of `validate` for a new booking that passes the lead-time,
ordering and past checks. -/
theorem validate_new_passed (db : List Booking) (now : Int) (r : Nat)
    (s e : Int) (h1 : ¬s < now + 30) (h2 : s < e) :
    validate db now none ⟨some r, some s, some e⟩ =
      match overlappingBookings db none r s e with
      | [] => Except.ok ()
      | b :: bs =>
        Except.error (Rejection.conflict
          (((b :: bs).take 3).map (fun x => (x.start_time, x.end_time)))
          (suggestLoop (futureActive db now none r) (e - s) 20
            (latestEndNE b bs))) := by
  simp only [validate]
  rw [if_neg (by rintro ⟨-, hc⟩; exact h1 hc),
    if_neg (not_le.mpr h2),
    if_neg (by rintro ⟨-, hc⟩; exact h1 (by omega))]

/-! ## C5: the 20-round cap -/

/-- C5 counterexample: a resource whose back-to-back active bookings
`[0, 11)` and `[11, 22)` cover 22 times the requested duration 1 with no
gaps, yet the Slot Suggester returns the suggestion `[22, 23)` — it escapes
past the chain in two rounds instead of exhausting the cap, so coverage
greater than 20×duration does not imply "no suggestion". -/
theorem cap_coverage_claim_false :
    validate [⟨1, 1, 1, 0, 11, BStatus.confirmed⟩,
        ⟨2, 1, 1, 11, 22, BStatus.confirmed⟩] (-30) none
        ⟨some 1, some 0, some 1⟩ =
      Except.error (Rejection.conflict [(0, 11)] (some (22, 23))) ∧
    (22 : Int) - 0 > 20 * (1 - 0) := by decide

/-- C5 (amended): the suggestion scan performs at most 20 rounds, so it
always terminates; back-to-back coverage exceeding 20× the requested
duration does not by itself exhaust the cap, but a chain of 21 consecutive
back-to-back bookings of exactly the requested duration does: there the
scan clashes on every round and returns no suggestion. -/
theorem suggester_cap :
    (∀ (future : List Booking) (dd cs : Int),
        suggestRounds future dd 20 cs ≤ 20) ∧
    (∀ (pk0 r u : Nat) (t0 d now : Int), 0 < d → now + 30 ≤ t0 →
      validate (chainDb pk0 r u t0 d 21) now none
          ⟨some r, some t0, some (t0 + d)⟩ =
        Except.error (Rejection.conflict [(t0, t0 + d)] none)) := by
  constructor
  · intro future dd cs
    exact suggestRounds_le future dd 20 cs
  · intro pk0 r u t0 d now hd hlead
    have hov : overlappingBookings (chainDb pk0 r u t0 d 21) none r t0
        (t0 + d) = [chainBooking pk0 r u t0 d 0] :=
      overlappingBookings_chainDb pk0 r u t0 d hd 20
    have hfut : futureActive (chainDb pk0 r u t0 d 21) now none r =
        chainFrom pk0 r u t0 d 0 21 :=
      futureActive_chainDb pk0 r u t0 d hd now (by omega) 21
    have hseed : latestEndNE (chainBooking pk0 r u t0 d 0) [] = t0 + d := by
      simp [latestEndNE, chainBooking]
    have hdur : t0 + d - t0 = d := by ring
    have hdet : List.map (fun x : Booking => (x.start_time, x.end_time))
        (List.take 3 [chainBooking pk0 r u t0 d 0]) = [(t0, t0 + d)] := by
      simp [chainBooking]
    have hsug : suggestLoop (chainFrom pk0 r u t0 d 0 21) d 20 (t0 + d) =
        none := by
      have h1 : t0 + d = t0 + ((1 : Nat) : Int) * d := by
        push_cast
        ring
      rw [h1]
      exact suggestLoop_chain_none pk0 r u t0 d hd 20 1 21 (by omega)
    rw [validate_new_passed (chainDb pk0 r u t0 d 21) now r t0 (t0 + d)
      (by omega) (by omega), hov]
    show Except.error (Rejection.conflict
        (List.map (fun x : Booking => (x.start_time, x.end_time))
          (List.take 3 [chainBooking pk0 r u t0 d 0]))
        (suggestLoop (futureActive (chainDb pk0 r u t0 d 21) now none r)
          (t0 + d - t0) 20 (latestEndNE (chainBooking pk0 r u t0 d 0) []))) =
      Except.error (Rejection.conflict [(t0, t0 + d)] none)
    rw [hfut, hseed, hdur, hdet, hsug]

theorem suggester_cap_witness :
    suggestRounds [] 1 20 0 ≤ 20 ∧
      validate (chainDb 1 1 1 100 5 21) 70 none
          ⟨some 1, some 100, some (100 + 5)⟩ =
        Except.error (Rejection.conflict [(100, 100 + 5)] none) :=
  ⟨suggester_cap.1 [] 1 0,
    suggester_cap.2 1 1 1 100 5 70 (by decide) (by decide)⟩

end BookingSys
